import Mathlib

set_option maxRecDepth 100000

/-!
Shallow embedding of `gitget.py`: a script that clones a repository and
concatenates every plain-text file of its working tree into one Markdown
artifact, each file preceded by a delimiter line carrying its relative path.

Modelling conventions:
* machine bytes are `Nat` (values 0..255 in practice);
* a file-system observation that may raise an exception is an `Option`
  (classification sample) or an `Except String` (decoded read, carrying the
  exception text used in the error placeholder);
* the directory tree handed to `os.walk` is an inductive `Entry` tree whose
  child lists stand for the listing order returned by the OS;
* `multiprocessing.Pool.imap` is modelled by an explicit completion
  schedule (`sched : List Nat`): workers finish in schedule order, and the
  results are re-assembled positionally, exactly as `imap` does;
* Python compares `str` values code-point-lexicographically; the executable
  comparisons `charListLe` / `charListLt` below implement that order on
  `String.data` so that every definition stays kernel-computable.
-/

/-- Decidable equality for `Except`, needed to derive it for entries. -/
def exceptDecEq {ε α : Type} [DecidableEq ε] [DecidableEq α] : DecidableEq (Except ε α)
  | .ok a, .ok b =>
    match decEq a b with
    | isTrue h => isTrue (h ▸ rfl)
    | isFalse h => isFalse (fun hc => h (Except.ok.inj hc))
  | .error a, .error b =>
    match decEq a b with
    | isTrue h => isTrue (h ▸ rfl)
    | isFalse h => isFalse (fun hc => h (Except.error.inj hc))
  | .ok _, .error _ => isFalse (fun hc => Except.noConfusion hc)
  | .error _, .ok _ => isFalse (fun hc => Except.noConfusion hc)

instance : DecidableEq (Except String String) := exceptDecEq

/-- Code-point lexicographic `≤` on character lists (Python `str` order). -/
def charListLe : List Char → List Char → Bool
  | [], _ => true
  | _ :: _, [] => false
  | a :: as, b :: bs => a < b || (a == b && charListLe as bs)

/-- Code-point lexicographic `<` on character lists (Python `str` order). -/
def charListLt : List Char → List Char → Bool
  | [], [] => false
  | [], _ :: _ => true
  | _ :: _, [] => false
  | a :: as, b :: bs => a < b || (a == b && charListLt as bs)

/-- Python string `≤` (code-point lexicographic). -/
def strLe (s t : String) : Bool := charListLe s.data t.data

/-- Python string `<` (code-point lexicographic). -/
def strLt (s t : String) : Bool := charListLt s.data t.data

/-- `convert_https_to_ssh` of `gitget.py` (lines 28-40): rewrite an HTTPS
GitHub URL into the SSH form, appending `.git` when missing. -/
def convert_https_to_ssh (url : String) : String :=
  if url.startsWith "https://github.com/" then
    let path := url.drop ("https://github.com/".length)
    let path := path.dropRightWhile (fun c => c = '/')
    let path := if path.endsWith ".git" then path else path ++ ".git"
    "git@github.com:" ++ path
  else
    url

/-- `extract_repo_name` of `gitget.py` (lines 42-51). -/
def extract_repo_name (url : String) : String :=
  let url := url.dropRightWhile (fun c => c = '/')
  let repo := (url.splitOn "/").getLastD ""
  if repo.endsWith ".git" then repo.dropRight 4 else repo

/-- The byte set `allowed` of `is_text_file` (line 73): printable ASCII
32-126 plus tab, newline, carriage return. -/
def allowedByte (b : Nat) : Bool :=
  (32 ≤ b && b ≤ 126) || b == 9 || b == 10 || b == 13

/-- `nontext` of `is_text_file` (line 77): number of sampled bytes outside
the allowed set. -/
def nontextCount (chunk : List Nat) : Nat :=
  chunk.countP (fun b => !allowedByte b)

/-- `is_text_file` of `gitget.py` (lines 62-82).  `sample = none` models the
`except Exception: return False` path (open or read raised); `some bytes`
is the file's byte content, of which the first `blocksize` bytes are read.
The float test `nontext / len(chunk) > 0.30` is rendered as the exact
integer comparison `10 * nontext > 3 * len`: for chunks of at most 1024
bytes the two rationals `nontext / len` and `3 / 10` are at least `10⁻⁵`
apart whenever they differ, far above double-precision rounding error, and
when equal both sides round to the same double, so the IEEE-754 comparison
in the source agrees with the exact one on every reachable input. -/
def is_text_file (blocksize : Nat) (sample : Option (List Nat)) : Bool :=
  match sample with
  | none => false
  | some bytes =>
    let chunk := bytes.take blocksize
    if chunk.contains 0 then false
    else if chunk.isEmpty then true
    else if 10 * nontextCount chunk > 3 * chunk.length then false
    else true

mutual
/-- A node of the cloned working tree as `os.walk` observes it: a file with
its classification sample and its decoded-read outcome, or a directory with
its children in listing order.  (`EntryList` is a directory listing; it is
a mutual copy of `List Entry` so that every traversal below is plain
structural recursion.) -/
inductive Entry where
  | file (name : String) (sample : Option (List Nat)) (text : Except String String)
  | dir (name : String) (children : EntryList)

/-- A directory listing, in the order the OS returns it. -/
inductive EntryList where
  | nil
  | cons (e : Entry) (rest : EntryList)
end

/-- The name under which an entry appears in its parent's listing. -/
def entryName : Entry → String
  | .file n _ _ => n
  | .dir n _ => n

/-- The names of a listing, in listing order. -/
def entryNames : EntryList → List String
  | .nil => []
  | .cons e rest => entryName e :: entryNames rest

/-- One manifest element: the walk bookkeeping (`dirComps`, the directory
components below the root, plus the file name) together with the two
file-system observations the script later makes through `full_path`. -/
structure GEntry where
  dirComps : List String
  fname : String
  sample : Option (List Nat)
  text : Except String String
deriving DecidableEq

/-- `os.path.relpath(full_path, root_dir)`: the relative path, components
joined by `/`. -/
def GEntry.rel (e : GEntry) : String :=
  String.intercalate "/" (e.dirComps ++ [e.fname])

/-- The body of the inner loop of `gather_files` (lines 93-97) for the files
of the directory currently visited by `os.walk`: each file passing
`is_text_file` contributes one manifest entry. -/
def walkFiles (comps : List String) : EntryList → List GEntry
  | .nil => []
  | .cons (.file n s t) rest =>
    (if is_text_file 1024 s then [⟨comps, n, s, t⟩] else []) ++ walkFiles comps rest
  | .cons (.dir _ _) rest => walkFiles comps rest

/-- The recursive descent of `os.walk` into the subdirectories of the
current directory, after `gather_files` has executed
`if ".git" in dirs: dirs.remove(".git")` (lines 90-92): `dirs.remove`
deletes the first list occurrence of `".git"`, so the flag `gitRemoved`
records whether that deletion has already happened while scanning the
listing.  Each subdirectory descended into contributes its own files first
(its yielded triple) and then its own recursive descent. -/
def walkDirs (comps : List String) (gitRemoved : Bool) : EntryList → List GEntry
  | .nil => []
  | .cons (.file _ _ _) rest => walkDirs comps gitRemoved rest
  | .cons (.dir n cs) rest =>
    if n = ".git" && !gitRemoved then
      walkDirs comps true rest
    else
      (walkFiles (comps ++ [n]) cs ++ walkDirs (comps ++ [n]) false cs)
        ++ walkDirs comps gitRemoved rest

/-- The full `os.walk` traversal from one directory: the directory's own
files first (the yielded triple), then the recursion into its pruned
subdirectory list. -/
def walkAll (comps : List String) (es : EntryList) : List GEntry :=
  walkFiles comps es ++ walkDirs comps false es

/-- `gather_files` of `gitget.py` (lines 84-99): walk the tree, keep the
files passing the text check, and sort by relative path
(`files_list.sort(key=lambda x: x[0])`, a stable sort on the path key,
rendered with the stable `List.insertionSort`). -/
def gather_files (root : EntryList) : List GEntry :=
  List.insertionSort (fun a b => strLe a.rel b.rel = true) (walkAll [] root)

/-- `read_file_content` of `gitget.py` (lines 101-112): produce the
`(relative_path, content)` pair, substituting the error placeholder when
the decoded read raised. -/
def read_file_content (e : GEntry) : String × String :=
  (e.rel,
    match e.text with
    | .ok content => content
    | .error err => "[Error reading file: " ++ err ++ "]")

/-- The worker pool: tasks complete in schedule order; each completion
carries its input position.  A schedule index with no corresponding input
completes nothing. -/
def poolRun {α β : Type} (f : α → β) (inputs : List α) (sched : List Nat) :
    List (Nat × β) :=
  sched.filterMap (fun i => (inputs[i]?).map (fun a => (i, f a)))

/-- `Pool.imap` (line 153): results are handed back in input order,
re-associated with their original position irrespective of the order in
which workers completed them. -/
def poolImap {α β : Type} (f : α → β) (inputs : List α) (sched : List Nat) :
    List β :=
  (List.range inputs.length).filterMap
    (fun i => ((poolRun f inputs sched).find? (fun p => p.1 == i)).map Prod.snd)

/-- `"-" * 80` (line 119/122). -/
def dashRule : String := String.mk (List.replicate 80 '-')

/-- `write_markdown_async` of `gitget.py` (lines 114-125): the artifact text
is the concatenation, in result order, of delimiter, content and a trailing
newline for each `(relative_path, content)` pair. -/
def write_markdown : List (String × String) → String
  | [] => ""
  | (rel_path, content) :: rest =>
    ("\n" ++ dashRule ++ " " ++ rel_path ++ " " ++ dashRule ++ "\n")
      ++ content ++ "\n" ++ write_markdown rest

/-- The artifact text produced by the success path of `main` for a given
cloned tree and a given pool completion schedule. -/
def runArtifact (tree : EntryList) (sched : List Nat) : String :=
  write_markdown (poolImap read_file_content (gather_files tree) sched)

/-- The environment of one `main` invocation: the CLI argument, the outcome
of the `git clone` subprocess (`Except.error` carries the
`CalledProcessError` text), the cloned working tree, and the pool
completion schedule. -/
structure Env where
  repoUrl : String
  cloneResult : Except String Unit
  tree : EntryList
  sched : List Nat

/-- The observable outcome of one `main` invocation. -/
structure RunOutcome where
  exitCode : Nat
  errorMessage : Option String
  artifact : Option (String × String)
  tempDirRemoved : Bool
deriving DecidableEq

/-- `main` of `gitget.py` (lines 127-163) together with `clone_repository`
(lines 53-60): on clone failure `sys.exit(...)` raises `SystemExit`, which
is not caught by `except Exception`, so the `finally: shutil.rmtree`
removes the temporary directory and the process exits with status 1 and
the message, before the output file is ever opened; on success the
pipeline runs and the artifact is written to `<repo_name>.md`. -/
def mainModel (env : Env) : RunOutcome :=
  let ssh_url := convert_https_to_ssh env.repoUrl
  let repo_name := extract_repo_name env.repoUrl
  let output_file := repo_name ++ ".md"
  match env.cloneResult with
  | .error details =>
    { exitCode := 1
      errorMessage :=
        some ("Error: Unable to clone repository " ++ ssh_url ++ ". Details: " ++ details)
      artifact := none
      tempDirRemoved := true }
  | .ok _ =>
    { exitCode := 0
      errorMessage := none
      artifact := some (output_file, runArtifact env.tree env.sched)
      tempDirRemoved := true }

/-- Refinement-side definition, following the spec's words for one
delimiter block: a newline, the 80-dash rule on each side of the
space-padded relative path, a newline, the content (or placeholder), a
trailing newline. -/
def specBlock (rel_path content : String) : String :=
  "\n" ++ dashRule ++ " " ++ rel_path ++ " " ++ dashRule ++ "\n" ++ content ++ "\n"

/-- Concatenation of a block list; the artifact is exactly this, so nothing
precedes the first block. -/
def concatBlocks : List String → String
  | [] => ""
  | b :: bs => b ++ concatBlocks bs

/-- Well-formedness of the listings below a directory: every descended-into
listing has pairwise-distinct names, as a real file system guarantees. -/
def wfChildren : EntryList → Bool
  | .nil => true
  | .cons (.file _ _ _) rest => wfChildren rest
  | .cons (.dir _ cs) rest =>
    (decide ((entryNames cs).Nodup) && wfChildren cs) && wfChildren rest

/-- A directory tree is well formed when every listing, the top one
included, has pairwise-distinct names. -/
def wfTree (es : EntryList) : Bool :=
  decide ((entryNames es).Nodup) && wfChildren es

/-- Build a listing from a `List` literal (readability helper only). -/
def entryListOf : List Entry → EntryList
  | [] => .nil
  | e :: es => .cons e (entryListOf es)

/-! ### Order facts about the code-point lexicographic comparison -/

theorem charListLe_total (as bs : List Char) :
    charListLe as bs = true ∨ charListLe bs as = true := by
  induction as generalizing bs with
  | nil => left; rfl
  | cons a as ih =>
    cases bs with
    | nil => right; rfl
    | cons b bs =>
      rcases lt_trichotomy a b with h | h | h
      · left; simp [charListLe, h]
      · subst h
        rcases ih bs with h2 | h2
        · left; simp [charListLe, h2]
        · right; simp [charListLe, h2]
      · right; simp [charListLe, h]

theorem charListLe_trans {as bs cs : List Char} (h1 : charListLe as bs = true)
    (h2 : charListLe bs cs = true) : charListLe as cs = true := by
  induction as generalizing bs cs with
  | nil => rfl
  | cons a as ih =>
    cases bs with
    | nil => simp [charListLe] at h1
    | cons b bs =>
      cases cs with
      | nil => simp [charListLe] at h2
      | cons c cs =>
        simp only [charListLe, Bool.or_eq_true, Bool.and_eq_true, beq_iff_eq,
          decide_eq_true_eq] at h1 h2 ⊢
        rcases h1 with h1 | ⟨rfl, h1⟩
        · rcases h2 with h2 | ⟨rfl, h2⟩
          · exact Or.inl (lt_trans h1 h2)
          · exact Or.inl h1
        · rcases h2 with h2 | ⟨rfl, h2⟩
          · exact Or.inl h2
          · exact Or.inr ⟨rfl, ih h1 h2⟩

theorem charListLt_of_le_of_ne {as bs : List Char} (h : charListLe as bs = true)
    (hne : as ≠ bs) : charListLt as bs = true := by
  induction as generalizing bs with
  | nil =>
    cases bs with
    | nil => exact absurd rfl hne
    | cons b bs => rfl
  | cons a as ih =>
    cases bs with
    | nil => simp [charListLe] at h
    | cons b bs =>
      simp only [charListLe, Bool.or_eq_true, Bool.and_eq_true, beq_iff_eq,
        decide_eq_true_eq] at h
      simp only [charListLt, Bool.or_eq_true, Bool.and_eq_true, beq_iff_eq,
        decide_eq_true_eq]
      rcases h with h | ⟨rfl, h⟩
      · exact Or.inl h
      · refine Or.inr ⟨rfl, ih h ?_⟩
        intro hc; exact hne (by rw [hc])

theorem strLt_of_le_of_ne {s t : String} (h : strLe s t = true) (hne : s ≠ t) :
    strLt s t = true :=
  charListLt_of_le_of_ne h (fun hc => hne (String.ext hc))

instance : IsTotal GEntry (fun a b => strLe a.rel b.rel = true) :=
  ⟨fun a b => charListLe_total a.rel.data b.rel.data⟩

instance : IsTrans GEntry (fun a b => strLe a.rel b.rel = true) :=
  ⟨fun _ _ _ h1 h2 => charListLe_trans h1 h2⟩

/-! ### The pool model: `imap` undoes any completion order -/

theorem range_filterMap_getElem {α β : Type} (l : List α) (f : α → β) :
    (List.range l.length).filterMap (fun i => (l[i]?).map f) = l.map f := by
  induction l with
  | nil => rfl
  | cons a as ih =>
    simp only [List.length_cons, List.range_succ_eq_map, List.filterMap_cons,
      List.getElem?_cons_zero, Option.map_some', List.filterMap_map, List.map_cons]
    refine congrArg (f a :: ·) ?_
    have hcongr : ∀ i ∈ List.range as.length,
        ((fun i => ((a :: as)[i]?).map f) ∘ Nat.succ) i = (fun i => (as[i]?).map f) i := by
      intro i _
      simp [Function.comp, List.getElem?_cons_succ]
    rw [List.filterMap_congr hcongr]
    exact ih

theorem poolRun_mem {α β : Type} {f : α → β} {inputs : List α} {sched : List Nat}
    {p : Nat × β} (h : p ∈ poolRun f inputs sched) :
    ∃ a, inputs[p.1]? = some a ∧ p.2 = f a := by
  rcases List.mem_filterMap.mp h with ⟨i, _, hi⟩
  rcases Option.map_eq_some'.mp hi with ⟨a, ha, hpa⟩
  exact ⟨a, by rw [← hpa]; exact ha, by rw [← hpa]⟩

theorem poolImap_perm {α β : Type} (f : α → β) (inputs : List α) (sched : List Nat)
    (h : sched.Perm (List.range inputs.length)) :
    poolImap f inputs sched = inputs.map f := by
  have key : ∀ i ∈ List.range inputs.length,
      ((poolRun f inputs sched).find? (fun p => p.1 == i)).map Prod.snd
        = (inputs[i]?).map f := by
    intro i hi
    have hi' : i < inputs.length := List.mem_range.mp hi
    have ha : inputs[i]? = some inputs[i] := List.getElem?_eq_getElem hi'
    have hmem : (i, f inputs[i]) ∈ poolRun f inputs sched :=
      List.mem_filterMap.mpr ⟨i, h.mem_iff.mpr hi, by rw [ha]; rfl⟩
    have hsome : ((poolRun f inputs sched).find? (fun p => p.1 == i)).isSome :=
      List.find?_isSome.mpr ⟨(i, f inputs[i]), hmem, by simp⟩
    rcases Option.isSome_iff_exists.mp hsome with ⟨y, hy⟩
    have hyi : y.1 = i := by simpa using List.find?_some hy
    rcases poolRun_mem (List.mem_of_find?_eq_some hy) with ⟨b, hb, hfb⟩
    rw [hyi, ha] at hb
    rw [hy, ha, Option.map_some', Option.map_some', hfb, Option.some.inj hb]
  rw [poolImap, List.filterMap_congr key, range_filterMap_getElem]

/-! ### Facts about the manifest produced by `gather_files` -/

theorem gather_files_sorted (root : EntryList) :
    List.Pairwise (fun a b : GEntry => strLe a.rel b.rel = true) (gather_files root) :=
  List.sorted_insertionSort _ _

theorem gather_files_perm (root : EntryList) :
    (gather_files root).Perm (walkAll [] root) :=
  List.perm_insertionSort _ _

theorem read_file_content_fst (e : GEntry) : (read_file_content e).1 = e.rel := rfl

theorem write_markdown_eq_concatBlocks (rs : List (String × String)) :
    write_markdown rs = concatBlocks (rs.map (fun p => specBlock p.1 p.2)) := by
  induction rs with
  | nil => rfl
  | cons p rest ih =>
    cases p with
    | mk rel_path content =>
      simp only [write_markdown, List.map_cons, concatBlocks, specBlock, ih]

theorem walkFiles_classified : ∀ (comps : List String) (es : EntryList) (e : GEntry),
    e ∈ walkFiles comps es → is_text_file 1024 e.sample = true
  | comps, .nil, e, h => by simp [walkFiles] at h
  | comps, .cons (.file n s t) rest, e, h => by
    simp only [walkFiles, List.mem_append] at h
    rcases h with h | h
    · by_cases hc : is_text_file 1024 s = true
      · simp only [hc, if_true, List.mem_singleton] at h
        subst h; exact hc
      · simp [hc] at h
    · exact walkFiles_classified comps rest e h
  | comps, .cons (.dir n cs) rest, e, h => by
    simp only [walkFiles] at h
    exact walkFiles_classified comps rest e h

theorem walkDirs_classified : ∀ (comps : List String) (flag : Bool) (es : EntryList)
    (e : GEntry), e ∈ walkDirs comps flag es → is_text_file 1024 e.sample = true
  | comps, flag, .nil, e, h => by simp [walkDirs] at h
  | comps, flag, .cons (.file n s t) rest, e, h => by
    simp only [walkDirs] at h
    exact walkDirs_classified comps flag rest e h
  | comps, flag, .cons (.dir n cs) rest, e, h => by
    simp only [walkDirs] at h
    by_cases hcond : (n = ".git" && !flag) = true
    · rw [if_pos hcond] at h
      exact walkDirs_classified comps true rest e h
    · rw [if_neg hcond] at h
      rcases List.mem_append.mp h with h | h
      · rcases List.mem_append.mp h with h | h
        · exact walkFiles_classified (comps ++ [n]) cs e h
        · exact walkDirs_classified (comps ++ [n]) false cs e h
      · exact walkDirs_classified comps flag rest e h

theorem walkFiles_dirComps : ∀ (comps : List String) (es : EntryList) (e : GEntry),
    e ∈ walkFiles comps es → e.dirComps = comps
  | comps, .nil, e, h => by simp [walkFiles] at h
  | comps, .cons (.file n s t) rest, e, h => by
    simp only [walkFiles, List.mem_append] at h
    rcases h with h | h
    · by_cases hc : is_text_file 1024 s = true
      · simp only [hc, if_true, List.mem_singleton] at h
        subst h; rfl
      · simp [hc] at h
    · exact walkFiles_dirComps comps rest e h
  | comps, .cons (.dir n cs) rest, e, h => by
    simp only [walkFiles] at h
    exact walkFiles_dirComps comps rest e h

theorem walkDirs_noGit : ∀ (comps : List String) (flag : Bool) (es : EntryList)
    (e : GEntry), (entryNames es).Nodup → wfChildren es = true → ".git" ∉ comps →
    (flag = true → ".git" ∉ entryNames es) →
    e ∈ walkDirs comps flag es → ".git" ∉ e.dirComps
  | comps, flag, .nil, e, _, _, _, _, h => by simp [walkDirs] at h
  | comps, flag, .cons (.file n s t) rest, e, hnd, hwf, hcomps, hflag, h => by
    simp only [walkDirs] at h
    refine walkDirs_noGit comps flag rest e ?_ ?_ hcomps ?_ h
    · exact (List.nodup_cons.mp hnd).2
    · exact hwf
    · intro hf hm
      exact hflag hf (List.mem_cons_of_mem _ hm)
  | comps, flag, .cons (.dir n cs) rest, e, hnd, hwf, hcomps, hflag, h => by
    simp only [walkDirs] at h
    have hwf' : ((decide ((entryNames cs).Nodup) && wfChildren cs) && wfChildren rest)
        = true := hwf
    rw [Bool.and_eq_true, Bool.and_eq_true] at hwf'
    by_cases hcond : (n = ".git" && !flag) = true
    · rw [if_pos hcond] at h
      rw [Bool.and_eq_true, decide_eq_true_eq, Bool.not_eq_true'] at hcond
      refine walkDirs_noGit comps true rest e ?_ hwf'.2 hcomps ?_ h
      · exact (List.nodup_cons.mp hnd).2
      · intro _
        have := (List.nodup_cons.mp hnd).1
        rw [entryName] at this
        rw [← hcond.1]
        exact this
    · rw [if_neg hcond] at h
      have hn : n ≠ ".git" := by
        intro hc
        rcases Bool.not_eq_true _ ▸ hcond with _
        by_cases hfl : flag = true
        · exact hflag hfl (by rw [← hc]; exact List.mem_cons_self _ _)
        · rw [Bool.not_eq_true] at hfl
          exact hcond (by rw [hc, hfl]; rfl)
      rcases List.mem_append.mp h with h | h
      · rcases List.mem_append.mp h with h | h
        · rw [walkFiles_dirComps (comps ++ [n]) cs e h]
          intro hc
          rcases List.mem_append.mp hc with hc | hc
          · exact hcomps hc
          · exact hn (List.mem_singleton.mp hc).symm
        · refine walkDirs_noGit (comps ++ [n]) false cs e
            (by exact decide_eq_true_eq.mp hwf'.1.1) hwf'.1.2 ?_ (by intro hc; cases hc) h
          intro hc
          rcases List.mem_append.mp hc with hc | hc
          · exact hcomps hc
          · exact hn (List.mem_singleton.mp hc).symm
      · refine walkDirs_noGit comps flag rest e (List.nodup_cons.mp hnd).2 hwf'.2
          hcomps ?_ h
        intro hf hm
        exact hflag hf (List.mem_cons_of_mem _ hm)

theorem gather_files_noGit (root : EntryList) (hwf : wfTree root = true)
    (e : GEntry) (he : e ∈ gather_files root) : ".git" ∉ e.dirComps := by
  have hw : e ∈ walkAll [] root := (gather_files_perm root).mem_iff.mp he
  have hwf' : (decide ((entryNames root).Nodup) && wfChildren root) = true := hwf
  rw [Bool.and_eq_true, decide_eq_true_eq] at hwf'
  rcases List.mem_append.mp hw with h | h
  · rw [walkFiles_dirComps [] root e h]
    exact List.not_mem_nil _
  · exact walkDirs_noGit [] false root e hwf'.1 hwf'.2 (List.not_mem_nil _)
      (by intro hc; cases hc) h

/-! ### The claims -/

/-- C1: for every input tree and every completion schedule of the worker
pool (any permutation of the task indices, covering pool sizes 1, 2 and
many), the sequence of relative paths heading the artifact's blocks equals
the manifest order fixed by `gather_files` before any read begins, and —
when the tree's relative paths are pairwise distinct, as on a real file
system — that sequence is strictly lexicographically ascending. -/
theorem claim_C1_output_order (root : EntryList) (sched : List Nat)
    (hperm : sched.Perm (List.range (gather_files root).length))
    (hnodup : ((gather_files root).map GEntry.rel).Nodup) :
    (poolImap read_file_content (gather_files root) sched).map Prod.fst
        = (gather_files root).map GEntry.rel
    ∧ List.Pairwise (fun p q => strLt p q = true)
        ((poolImap read_file_content (gather_files root) sched).map Prod.fst) := by
  have hmap : (poolImap read_file_content (gather_files root) sched).map Prod.fst
      = (gather_files root).map GEntry.rel := by
    rw [poolImap_perm _ _ _ hperm, List.map_map]
    rfl
  refine ⟨hmap, ?_⟩
  rw [hmap]
  have hsorted := gather_files_sorted root
  have hne : List.Pairwise (fun a b : GEntry => a.rel ≠ b.rel) (gather_files root) :=
    List.pairwise_map.mp hnodup
  rw [List.pairwise_map]
  exact (hsorted.and hne).imp (fun h => strLt_of_le_of_ne h.1 h.2)

theorem claim_C1_output_order_witness :
    (poolImap read_file_content (gather_files (entryListOf
        [.file "b" (some [66]) (.ok "B"), .file "a" (some [65]) (.ok "A")])) [1, 0]).map
          Prod.fst
      = (gather_files (entryListOf
        [.file "b" (some [66]) (.ok "B"), .file "a" (some [65]) (.ok "A")])).map GEntry.rel
    ∧ List.Pairwise (fun p q => strLt p q = true)
        ((poolImap read_file_content (gather_files (entryListOf
          [.file "b" (some [66]) (.ok "B"), .file "a" (some [65]) (.ok "A")])) [1, 0]).map
            Prod.fst) :=
  claim_C1_output_order _ [1, 0] (by decide) (by decide)

/-- C2: a manifest entry whose file cannot be read at read time still yields
a `(path, placeholder)` result, hence a delimiter block with the error
placeholder in the artifact's block list, and the run completes with exit
code 0 and an artifact written. -/
theorem claim_C2_error_placeholder (url : String) (root : EntryList) (sched : List Nat)
    (e : GEntry) (err : String)
    (hperm : sched.Perm (List.range (gather_files root).length))
    (he : e ∈ gather_files root) (herr : e.text = .error err) :
    (e.rel, "[Error reading file: " ++ err ++ "]")
        ∈ poolImap read_file_content (gather_files root) sched
    ∧ specBlock e.rel ("[Error reading file: " ++ err ++ "]")
        ∈ (poolImap read_file_content (gather_files root) sched).map
            (fun p => specBlock p.1 p.2)
    ∧ (mainModel ⟨url, Except.ok (), root, sched⟩).exitCode = 0
    ∧ (mainModel ⟨url, Except.ok (), root, sched⟩).artifact
        = some (extract_repo_name url ++ ".md", runArtifact root sched) := by
  have h1 : (e.rel, "[Error reading file: " ++ err ++ "]")
      ∈ poolImap read_file_content (gather_files root) sched := by
    rw [poolImap_perm _ _ _ hperm]
    refine List.mem_map.mpr ⟨e, he, ?_⟩
    simp [read_file_content, herr]
  exact ⟨h1, List.mem_map.mpr ⟨_, h1, rfl⟩, rfl, rfl⟩

theorem claim_C2_error_placeholder_witness :
    ("bad", "[Error reading file: Permission denied]")
        ∈ poolImap read_file_content (gather_files (entryListOf
          [.file "bad" (some [65]) (.error "Permission denied")])) [0]
    ∧ specBlock "bad" "[Error reading file: Permission denied]"
        ∈ (poolImap read_file_content (gather_files (entryListOf
          [.file "bad" (some [65]) (.error "Permission denied")])) [0]).map
            (fun p => specBlock p.1 p.2)
    ∧ (mainModel ⟨"https://github.com/u/r", Except.ok (), entryListOf
          [.file "bad" (some [65]) (.error "Permission denied")], [0]⟩).exitCode = 0
    ∧ (mainModel ⟨"https://github.com/u/r", Except.ok (), entryListOf
          [.file "bad" (some [65]) (.error "Permission denied")], [0]⟩).artifact
        = some (extract_repo_name "https://github.com/u/r" ++ ".md",
            runArtifact (entryListOf
              [.file "bad" (some [65]) (.error "Permission denied")]) [0]) :=
  claim_C2_error_placeholder "https://github.com/u/r" _ [0]
    ⟨[], "bad", some [65], .error "Permission denied"⟩ "Permission denied"
    (by decide) (by decide) rfl

/-- C3: on a non-empty sample free of NUL bytes, the classifier includes the
file exactly when the non-printable fraction is at most 3/10; in
particular a fraction of exactly 3/10 is included (inclusive boundary) and
a strictly larger one is excluded. -/
theorem claim_C3_threshold_boundary (bytes : List Nat)
    (h1 : bytes.take 1024 ≠ []) (h2 : (0 : Nat) ∉ bytes.take 1024) :
    is_text_file 1024 (some bytes) = true
      ↔ (nontextCount (bytes.take 1024) : ℚ) / ((bytes.take 1024).length : ℚ) ≤ 3 / 10 := by
  have hlen : 0 < (bytes.take 1024).length := List.length_pos.mpr h1
  have hcont : (bytes.take 1024).contains 0 = false := by simpa using h2
  have hemp : (bytes.take 1024).isEmpty = false := by
    cases hh : bytes.take 1024 with
    | nil => exact absurd hh h1
    | cons c cs => rfl
  have hkey : ((nontextCount (bytes.take 1024) : ℚ) / ((bytes.take 1024).length : ℚ) ≤ 3 / 10)
      ↔ 10 * nontextCount (bytes.take 1024) ≤ 3 * (bytes.take 1024).length := by
    rw [div_le_div_iff₀ (by exact_mod_cast hlen) (by norm_num)]
    constructor
    · intro h
      have h2q : ((10 * nontextCount (bytes.take 1024) : Nat) : ℚ)
          ≤ ((3 * (bytes.take 1024).length : Nat) : ℚ) := by
        push_cast
        linarith
      exact_mod_cast h2q
    · intro h
      have h2q : ((10 * nontextCount (bytes.take 1024) : Nat) : ℚ)
          ≤ ((3 * (bytes.take 1024).length : Nat) : ℚ) := by exact_mod_cast h
      push_cast at h2q
      linarith
  have hcond : is_text_file 1024 (some bytes) = true
      ↔ 10 * nontextCount (bytes.take 1024) ≤ 3 * (bytes.take 1024).length := by
    simp only [is_text_file, hcont, hemp, Bool.false_eq_true, if_false]
    by_cases hgt : 10 * nontextCount (bytes.take 1024) > 3 * (bytes.take 1024).length
    · rw [if_pos hgt]
      constructor
      · intro hc; cases hc
      · intro hc; omega
    · rw [if_neg hgt]
      constructor
      · intro _; omega
      · intro _; rfl
  rw [hcond, hkey]

theorem claim_C3_threshold_boundary_witness :
    is_text_file 1024 (some [255, 255, 255, 65, 65, 65, 65, 65, 65, 65]) = true
      ↔ (nontextCount ([255, 255, 255, 65, 65, 65, 65, 65, 65, 65].take 1024) : ℚ)
          / (([255, 255, 255, 65, 65, 65, 65, 65, 65, 65].take 1024).length : ℚ) ≤ 3 / 10 :=
  claim_C3_threshold_boundary _ (by decide) (by decide)

/-- C4: in a well-formed tree (distinct sibling names, as on a real file
system), a directory named `.git` is pruned before its children are
visited, so no manifest entry lies below a `.git` directory, and for every
completion schedule every block path of the artifact is the relative path
of a manifest entry not below a `.git` directory. -/
theorem claim_C4_git_pruned (root : EntryList) (hwf : wfTree root = true) :
    (∀ e ∈ gather_files root, ".git" ∉ e.dirComps)
    ∧ ∀ sched, sched.Perm (List.range (gather_files root).length) →
        ∀ p ∈ poolImap read_file_content (gather_files root) sched,
          ∃ e ∈ gather_files root, p.1 = e.rel ∧ ".git" ∉ e.dirComps := by
  refine ⟨fun e he => gather_files_noGit root hwf e he, ?_⟩
  intro sched hperm p hp
  rw [poolImap_perm _ _ _ hperm] at hp
  rcases List.mem_map.mp hp with ⟨e, he, hpe⟩
  exact ⟨e, he, by rw [← hpe]; rfl, gather_files_noGit root hwf e he⟩

theorem claim_C4_git_pruned_witness :
    ".git" ∉ (⟨[], "a", some [65], Except.ok "y"⟩ : GEntry).dirComps :=
  (claim_C4_git_pruned (entryListOf
      [.dir ".git" (entryListOf [.file "config" (some [65]) (.ok "x")]),
       .file "a" (some [65]) (.ok "y")]) (by decide)).1
    ⟨[], "a", some [65], .ok "y"⟩ (by decide)

/-- C5: for every completion schedule, the artifact is exactly the
concatenation of one delimiter block per manifest entry (so N entries give
N blocks and nothing precedes the first block), each block being a
newline, the 80-dash rule on each side of the space-padded relative path,
a newline, the content or failure placeholder, and a trailing newline. -/
theorem claim_C5_block_format (root : EntryList) (sched : List Nat)
    (hperm : sched.Perm (List.range (gather_files root).length)) :
    runArtifact root sched
      = concatBlocks ((gather_files root).map
          (fun e => specBlock e.rel (read_file_content e).2))
    ∧ ((gather_files root).map
          (fun e => specBlock e.rel (read_file_content e).2)).length
      = (gather_files root).length := by
  constructor
  · rw [runArtifact, poolImap_perm _ _ _ hperm, write_markdown_eq_concatBlocks,
      List.map_map]
    rfl
  · exact List.length_map _ _

theorem claim_C5_block_format_witness :
    runArtifact (entryListOf
        [.file "b" (some [66]) (.ok "B"), .file "a" (some [65]) (.error "boom")]) [1, 0]
      = concatBlocks ((gather_files (entryListOf
          [.file "b" (some [66]) (.ok "B"), .file "a" (some [65]) (.error "boom")])).map
            (fun e => specBlock e.rel (read_file_content e).2))
    ∧ ((gather_files (entryListOf
          [.file "b" (some [66]) (.ok "B"), .file "a" (some [65]) (.error "boom")])).map
            (fun e => specBlock e.rel (read_file_content e).2)).length
      = (gather_files (entryListOf
          [.file "b" (some [66]) (.ok "B"), .file "a" (some [65]) (.error "boom")])).length :=
  claim_C5_block_format _ [1, 0] (by decide)

/-- C6: a sample containing a NUL byte is always classified as excluded,
whatever the rest of the sample looks like. -/
theorem claim_C6_nul_excluded (bytes : List Nat) (h : (0 : Nat) ∈ bytes.take 1024) :
    is_text_file 1024 (some bytes) = false := by
  have hcont : (bytes.take 1024).contains 0 = true := by simpa using h
  simp only [is_text_file, hcont, if_true]

theorem claim_C6_nul_excluded_witness :
    is_text_file 1024 (some [65, 0, 65]) = false :=
  claim_C6_nul_excluded [65, 0, 65] (by decide)

/-- C7: an empty sample is classified as included (empty files are text). -/
theorem claim_C7_empty_included (bytes : List Nat) (h : bytes.take 1024 = []) :
    is_text_file 1024 (some bytes) = true := by
  simp [is_text_file, h]

theorem claim_C7_empty_included_witness :
    is_text_file 1024 (some []) = true :=
  claim_C7_empty_included [] (by decide)

/-- C8: an I/O error while sampling classifies as excluded rather than
raising; consequently every manifest entry was successfully sampled and
classified as text (a file whose sampling failed is omitted), and a run
with a successfully cloned tree always exits with code 0. -/
theorem claim_C8_classify_fail_safe :
    is_text_file 1024 none = false
    ∧ (∀ root e, e ∈ gather_files root →
        is_text_file 1024 e.sample = true ∧ e.sample ≠ none)
    ∧ ∀ url root sched, (mainModel ⟨url, Except.ok (), root, sched⟩).exitCode = 0 := by
  refine ⟨rfl, ?_, fun _ _ _ => rfl⟩
  intro root e he
  have hw : e ∈ walkAll [] root := (gather_files_perm root).mem_iff.mp he
  have hc : is_text_file 1024 e.sample = true := by
    rcases List.mem_append.mp hw with h | h
    · exact walkFiles_classified _ _ _ h
    · exact walkDirs_classified _ _ _ _ h
  refine ⟨hc, ?_⟩
  intro hn
  rw [hn] at hc
  exact absurd hc (by decide)

theorem claim_C8_classify_fail_safe_witness :
    is_text_file 1024 (⟨[], "a", some [65], Except.ok "y"⟩ : GEntry).sample = true
    ∧ (⟨[], "a", some [65], Except.ok "y"⟩ : GEntry).sample ≠ none :=
  claim_C8_classify_fail_safe.2.1 (entryListOf [.file "a" (some [65]) (.ok "y")])
    ⟨[], "a", some [65], .ok "y"⟩ (by decide)

/-- C9: two complete runs over the same unchanged tree produce byte-identical
artifacts, whatever completion schedules the two worker pools happened to
follow. -/
theorem claim_C9_idempotent (root : EntryList) (s1 s2 : List Nat)
    (h1 : s1.Perm (List.range (gather_files root).length))
    (h2 : s2.Perm (List.range (gather_files root).length)) :
    runArtifact root s1 = runArtifact root s2 := by
  rw [runArtifact, runArtifact, poolImap_perm _ _ _ h1, poolImap_perm _ _ _ h2]

theorem claim_C9_idempotent_witness :
    runArtifact (entryListOf
        [.file "b" (some [66]) (.ok "B"), .file "a" (some [65]) (.ok "A")]) [1, 0]
      = runArtifact (entryListOf
        [.file "b" (some [66]) (.ok "B"), .file "a" (some [65]) (.ok "A")]) [0, 1] :=
  claim_C9_idempotent _ [1, 0] [0, 1] (by decide) (by decide)

/-- C10: when the clone step fails, the run exits with the non-zero status 1
carrying a descriptive message, no artifact is produced, and the temporary
working directory is removed on that exit path. -/
theorem claim_C10_clone_failure (env : Env) (details : String)
    (h : env.cloneResult = .error details) :
    (mainModel env).exitCode = 1
    ∧ (mainModel env).exitCode ≠ 0
    ∧ (mainModel env).artifact = none
    ∧ (mainModel env).tempDirRemoved = true
    ∧ (mainModel env).errorMessage
        = some ("Error: Unable to clone repository " ++ convert_https_to_ssh env.repoUrl
            ++ ". Details: " ++ details) := by
  simp [mainModel, h]

theorem claim_C10_clone_failure_witness :
    (mainModel ⟨"https://github.com/u/r", Except.error "exit 128", .nil, []⟩).exitCode = 1
    ∧ (mainModel ⟨"https://github.com/u/r", Except.error "exit 128", .nil, []⟩).exitCode ≠ 0
    ∧ (mainModel ⟨"https://github.com/u/r", Except.error "exit 128", .nil, []⟩).artifact = none
    ∧ (mainModel ⟨"https://github.com/u/r", Except.error "exit 128",
        .nil, []⟩).tempDirRemoved = true
    ∧ (mainModel ⟨"https://github.com/u/r", Except.error "exit 128", .nil, []⟩).errorMessage
        = some ("Error: Unable to clone repository "
            ++ convert_https_to_ssh "https://github.com/u/r" ++ ". Details: " ++ "exit 128") :=
  claim_C10_clone_failure ⟨"https://github.com/u/r", Except.error "exit 128", .nil, []⟩
    "exit 128" rfl
